import Mathlib

/-!
Verification of the TorchTime campaign-scheduling and character-management
application (src/app.js, with src/unnamed/part_000 an earlier near-duplicate
rewrite).  Each JavaScript function relevant to the specification is embedded
as an executable Lean definition; JavaScript numbers that only ever hold
integers are modelled as `Int`/`Nat`, `undefined`/`null` as `Option`, and
JS arrays as `List`.
-/

namespace TorchTime

/-! ### Leveling engine: getLevelFromXp (src/app.js lines 99-109) -/

/-- The fixed ascending XP threshold table from `getLevelFromXp`. -/
def thresholds : List Int :=
  [0, 300, 900, 2700, 6500, 14000, 23000, 34000, 48000, 64000,
   85000, 100000, 120000, 140000, 165000, 195000, 225000,
   265000, 305000, 355000]

/-- JavaScript comparison `xp >= t`: `none` models `undefined` (the
comparison is `NaN >= t`, which is false). -/
def xpGE : Option Int → Int → Bool
  | none, _ => false
  | some x, t => t ≤ x

/-- The descending scan `for (let i = thresholds.length - 1; i >= 0; i--)`:
`levelScan xp (n+1)` checks index `n` and returns `n+1` on success,
otherwise continues downward; `levelScan xp 0` is the fall-through
`return 1`. -/
def levelScan (xp : Option Int) : Nat → Nat
  | 0 => 1
  | n + 1 => if xpGE xp (thresholds.getD n 0) then n + 1 else levelScan xp n

/-- `getLevelFromXp(xp)` from src/app.js lines 99-109. -/
def getLevelFromXp (xp : Option Int) : Nat :=
  levelScan xp thresholds.length

theorem levelScan_eq_of (x : Int) :
    ∀ n i, i < n → xpGE (some x) (thresholds.getD i 0) = true →
      (∀ j, i < j → j < n → xpGE (some x) (thresholds.getD j 0) = false) →
      levelScan (some x) n = i + 1 := by
  intro n
  induction n with
  | zero => intro i hi; omega
  | succ m ih =>
    intro i hi hsat habove
    by_cases hm : xpGE (some x) (thresholds.getD m 0) = true
    · have him : i = m := by
        by_contra hne
        have hilt : i < m := by omega
        have hfalse := habove m hilt (Nat.lt_succ_self m)
        rw [hfalse] at hm
        exact Bool.false_ne_true hm
      subst him
      simp only [levelScan]
      rw [if_pos hm]
    · simp only [levelScan]
      rw [if_neg hm]
      have hne : i ≠ m := fun h => hm (h ▸ hsat)
      exact ih i (by omega) hsat (fun j h1 h2 => habove j h1 (by omega))

theorem levelScan_eq_one_of (x : Option Int) :
    ∀ n, (∀ i, i < n → xpGE x (thresholds.getD i 0) = false) →
      levelScan x n = 1 := by
  intro n
  induction n with
  | zero => intro _; rfl
  | succ m ih =>
    intro h
    have hm : ¬ (xpGE x (thresholds.getD m 0) = true) := by
      rw [h m (Nat.lt_succ_self m)]
      simp
    simp only [levelScan]
    rw [if_neg hm]
    exact ih (fun i hi => h i (by omega))

theorem levelScan_le (x : Option Int) : ∀ n, levelScan x n ≤ n + 1 := by
  intro n
  induction n with
  | zero => exact Nat.le_refl _
  | succ m ih =>
    simp only [levelScan]
    by_cases h : xpGE x (thresholds.getD m 0) = true
    · rw [if_pos h]; omega
    · rw [if_neg h]; omega

theorem levelScan_ge (x : Int) :
    ∀ n i, i < n → xpGE (some x) (thresholds.getD i 0) = true →
      i + 1 ≤ levelScan (some x) n := by
  intro n
  induction n with
  | zero => intro i hi; omega
  | succ m ih =>
    intro i hi hsat
    simp only [levelScan]
    by_cases hm : xpGE (some x) (thresholds.getD m 0) = true
    · rw [if_pos hm]; omega
    · rw [if_neg hm]
      have hne : i ≠ m := fun h => hm (h ▸ hsat)
      exact ih i (by omega) hsat

theorem levelScan_mono (x y : Int) (hxy : x ≤ y) :
    ∀ n, levelScan (some x) n ≤ levelScan (some y) n := by
  intro n
  induction n with
  | zero => exact Nat.le_refl _
  | succ m ih =>
    simp only [levelScan]
    by_cases hy : xpGE (some y) (thresholds.getD m 0) = true
    · rw [if_pos hy]
      by_cases hx : xpGE (some x) (thresholds.getD m 0) = true
      · rw [if_pos hx]
      · rw [if_neg hx]
        have := levelScan_le (some x) m
        omega
    · have hx : ¬ (xpGE (some x) (thresholds.getD m 0) = true) := by
        intro hxt
        apply hy
        simp only [xpGE, decide_eq_true_eq] at hxt ⊢
        omega
      rw [if_neg hy, if_neg hx]
      exact ih

/-- Claim C4: `getLevelFromXp` returns `i+1` where `i` is the highest index of
the 20-entry ascending threshold table whose threshold does not exceed the XP
value (scanning from the top, the last satisfied threshold wins), returns 1
when no threshold is satisfied, in particular for every negative XP value, and
returns 1 for an undefined XP value. -/
theorem getLevelFromXp_top_scan :
    (∀ (x : Int) (i : Nat), i < 20 → thresholds.getD i 0 ≤ x →
      (∀ j, j < 20 → i < j → ¬ thresholds.getD j 0 ≤ x) →
      getLevelFromXp (some x) = i + 1)
    ∧ (∀ x : Int, x < 0 → getLevelFromXp (some x) = 1)
    ∧ getLevelFromXp none = 1 := by
  refine ⟨?_, ?_, rfl⟩
  · intro x i hi hsat habove
    have hsat' : xpGE (some x) (thresholds.getD i 0) = true := by
      simp only [xpGE, decide_eq_true_eq]
      exact hsat
    have habove' : ∀ j, i < j → j < 20 → xpGE (some x) (thresholds.getD j 0) = false := by
      intro j h1 h2
      simp only [xpGE, decide_eq_false_iff_not]
      exact habove j h2 h1
    exact levelScan_eq_of x 20 i hi hsat' habove'
  · intro x hneg
    apply levelScan_eq_one_of
    intro i hi
    have hi20 : i < 20 := hi
    have hall : ∀ i, i < 20 → (0:Int) ≤ thresholds.getD i 0 := by decide
    have := hall i hi20
    simp only [xpGE, decide_eq_false_iff_not]
    omega

/-- Witness for C4: at XP 500, index 1 (threshold 300) is the highest
satisfied threshold and the level is 2; XP −5 gives level 1. -/
theorem getLevelFromXp_top_scan_witness :
    getLevelFromXp (some 500) = 2 ∧ getLevelFromXp (some (-5)) = 1 :=
  ⟨getLevelFromXp_top_scan.1 500 1 (by decide) (by decide) (by decide),
   getLevelFromXp_top_scan.2.1 (-5) (by decide)⟩

/-- Claim C5: for every index `i` of the threshold table, every XP value at or
above `thresholds[i]` yields level at least `i+1`; and `getLevelFromXp` is
monotonically non-decreasing in the XP value. -/
theorem getLevelFromXp_lower_bound_mono :
    (∀ (x : Int) (i : Nat), i < 20 → thresholds.getD i 0 ≤ x →
      i + 1 ≤ getLevelFromXp (some x))
    ∧ (∀ x y : Int, x ≤ y → getLevelFromXp (some x) ≤ getLevelFromXp (some y)) := by
  constructor
  · intro x i hi hsat
    have hsat' : xpGE (some x) (thresholds.getD i 0) = true := by
      simp only [xpGE, decide_eq_true_eq]
      exact hsat
    exact levelScan_ge x 20 i hi hsat'
  · intro x y hxy
    exact levelScan_mono x y hxy _

/-- Witness for C5: XP 900 is at or above threshold index 2, so the level is
at least 3; and the level at XP 100 is at most the level at XP 900. -/
theorem getLevelFromXp_lower_bound_mono_witness :
    3 ≤ getLevelFromXp (some 900) ∧
      getLevelFromXp (some 100) ≤ getLevelFromXp (some 900) :=
  ⟨getLevelFromXp_lower_bound_mono.1 900 2 (by decide) (by decide),
   getLevelFromXp_lower_bound_mono.2 100 900 (by decide)⟩

/-! ### Proposal/voting engine: handleVote (src/app.js lines 212-225) and
finalization (src/app.js lines 732-745) -/

/-- One of the strings `'yes' | 'maybe' | 'no'` passed as `voteType`. -/
inductive VoteType where
  | yes
  | maybe
  | no
deriving DecidableEq, Repr

/-- The per-option vote record `{ yes: [], maybe: [], no: [] }`: three
parallel arrays of user ids. -/
structure VoteBuckets where
  yes : List String
  maybe : List String
  no : List String
deriving DecidableEq, Repr

/-- The freshly initialised record `{ yes: [], maybe: [], no: [] }`. -/
def emptyBuckets : VoteBuckets := ⟨[], [], []⟩

/-- Projection `proposal.votes[optionIndex][vt]`. -/
def VoteBuckets.bucket (b : VoteBuckets) : VoteType → List String
  | .yes => b.yes
  | .maybe => b.maybe
  | .no => b.no

/-- The loop `['yes','maybe','no'].forEach(...)` of `handleVote`:
`indexOf` + `splice(idx, 1)` removes the first occurrence of the user id
from each of the three arrays (`List.erase` removes the first occurrence). -/
def removeUserAll (b : VoteBuckets) (userId : String) : VoteBuckets :=
  ⟨b.yes.erase userId, b.maybe.erase userId, b.no.erase userId⟩

/-- `proposal.votes[optionIndex][voteType].push(userId)`. -/
def pushVote (b : VoteBuckets) (vt : VoteType) (userId : String) : VoteBuckets :=
  match vt with
  | .yes => { b with yes := b.yes ++ [userId] }
  | .maybe => { b with maybe := b.maybe ++ [userId] }
  | .no => { b with no := b.no ++ [userId] }

/-- The effect of `handleVote` on the single option record it touches:
initialise the record when the array slot is `undefined`, remove the user
from all three arrays, then push onto the selected one. -/
def castVote (b : Option VoteBuckets) (vt : VoteType) (userId : String) : VoteBuckets :=
  pushVote (removeUserAll (b.getD emptyBuckets) userId) vt userId

/-- A session proposal (shape built in renderProposeSession,
src/app.js lines 1494-1503). -/
structure TimeOption where
  date : String
  start : String
  endT : String
  location : String
deriving DecidableEq, Repr

structure Proposal where
  id : String
  campaignId : String
  createdBy : String
  finalized : Bool
  finalChoiceIndex : Option Nat
  options : List TimeOption
  votes : List (Option VoteBuckets)
deriving DecidableEq, Repr

/-- `handleVote(proposal, optionIndex, voteType, state)` from
src/app.js lines 212-225, acting on the proposal with
`userId = state.currentUserId`. -/
def handleVote (p : Proposal) (optionIndex : Nat) (vt : VoteType) (userId : String) :
    Proposal :=
  { p with votes :=
      p.votes.set optionIndex (some (castVote (p.votes.getD optionIndex none) vt userId)) }

/-- Total number of occurrences of a user across the three buckets of one
option record. -/
def userCount (b : VoteBuckets) (u : String) : Nat :=
  b.yes.count u + b.maybe.count u + b.no.count u

/-- The spec invariant "a user appears in at most one bucket per option":
every user occurs at most once across the three arrays of the record. -/
def BucketsInv (b : VoteBuckets) : Prop :=
  ∀ u, userCount b u ≤ 1

theorem count_removeUserAll_of_le_one (b : VoteBuckets) (u : String)
    (h : userCount b u ≤ 1) : userCount (removeUserAll b u) u = 0 := by
  unfold userCount removeUserAll
  unfold userCount at h
  simp only [List.count_erase_self]
  omega

theorem count_removeUserAll_ne (b : VoteBuckets) (u v : String) (h : v ≠ u) :
    userCount (removeUserAll b u) v = userCount b v := by
  unfold userCount removeUserAll
  simp only [List.count_erase_of_ne h]

theorem count_pushVote_self (b : VoteBuckets) (vt : VoteType) (u : String) :
    userCount (pushVote b vt u) u = userCount b u + 1 := by
  cases vt <;> simp [userCount, pushVote, List.count_append] <;> omega

theorem count_pushVote_ne (b : VoteBuckets) (vt : VoteType) (u v : String)
    (h : v ≠ u) : userCount (pushVote b vt u) v = userCount b v := by
  have h0 : List.count v [u] = 0 := by
    simp [List.count_eq_zero, h]
  cases vt <;> simp [userCount, pushVote, List.count_append, h0]

theorem bucket_count_le_userCount (b : VoteBuckets) (vt : VoteType) (u : String) :
    (b.bucket vt).count u ≤ userCount b u := by
  cases vt <;> simp [VoteBuckets.bucket, userCount] <;> omega

theorem mem_pushVote_self (b : VoteBuckets) (vt : VoteType) (u : String) :
    u ∈ (pushVote b vt u).bucket vt := by
  cases vt <;> simp [VoteBuckets.bucket, pushVote]

theorem bucket_pushVote_other (b : VoteBuckets) (vt vt' : VoteType) (u : String)
    (h : vt' ≠ vt) : (pushVote b vt u).bucket vt' = b.bucket vt' := by
  cases vt <;> cases vt' <;> simp_all [VoteBuckets.bucket, pushVote]

theorem castVote_exclusive (bOpt : Option VoteBuckets) (vt : VoteType)
    (userId : String) (hinv : BucketsInv (bOpt.getD emptyBuckets)) :
    userId ∈ (castVote bOpt vt userId).bucket vt ∧
      (∀ vt', vt' ≠ vt → userId ∉ (castVote bOpt vt userId).bucket vt') ∧
      BucketsInv (castVote bOpt vt userId) := by
  unfold castVote
  refine ⟨mem_pushVote_self _ vt userId, ?_, ?_⟩
  · intro vt' hne
    have hcnt0 : userCount (removeUserAll (bOpt.getD emptyBuckets) userId) userId = 0 :=
      count_removeUserAll_of_le_one _ userId (hinv userId)
    rw [bucket_pushVote_other _ vt vt' userId hne]
    intro hmem
    have hpos : 0 < ((removeUserAll (bOpt.getD emptyBuckets) userId).bucket vt').count userId :=
      List.count_pos_iff.mpr hmem
    have hle := bucket_count_le_userCount (removeUserAll (bOpt.getD emptyBuckets) userId)
      vt' userId
    omega
  · intro v
    by_cases hv : v = userId
    · subst hv
      have hcnt0 : userCount (removeUserAll (bOpt.getD emptyBuckets) v) v = 0 :=
        count_removeUserAll_of_le_one _ v (hinv v)
      have := count_pushVote_self (removeUserAll (bOpt.getD emptyBuckets) v) vt v
      omega
    · have h1 := count_removeUserAll_ne (bOpt.getD emptyBuckets) userId v hv
      have h2 := count_pushVote_ne (removeUserAll (bOpt.getD emptyBuckets) userId) vt userId v hv
      have := hinv v
      omega

/-- Claim C1: after `handleVote`, the voting user's id appears in the selected
bucket of that option and in neither of the other two buckets, and the
invariant that every user appears in at most one bucket per option (counting
occurrences across the three arrays) is preserved. -/
theorem handleVote_exclusive (p : Proposal) (optionIndex : Nat) (vt : VoteType)
    (userId : String) (hidx : optionIndex < p.votes.length)
    (hinv : BucketsInv (((p.votes.getD optionIndex none)).getD emptyBuckets)) :
    ∃ b, ((handleVote p optionIndex vt userId).votes.getD optionIndex none) = some b ∧
      userId ∈ b.bucket vt ∧
      (∀ vt', vt' ≠ vt → userId ∉ b.bucket vt') ∧
      BucketsInv b := by
  refine ⟨castVote (p.votes.getD optionIndex none) vt userId, ?_, ?_⟩
  · unfold handleVote
    simp only [List.getD]
    rw [show (p.votes.set optionIndex
        (some (castVote ((p.votes.get? optionIndex).getD none) vt userId))).get? optionIndex
        = some (some (castVote ((p.votes.get? optionIndex).getD none) vt userId)) from by
      rw [List.get?_eq_getElem?, List.getElem?_set_eq_of_lt _ hidx]]
    rfl
  · exact castVote_exclusive (p.votes.getD optionIndex none) vt userId hinv

/-- Witness for C1: a concrete proposal where user "u1" previously voted
maybe on option 0; voting yes moves them to the yes bucket only. -/
theorem handleVote_exclusive_witness :
    ∃ b, ((handleVote
        { id := "p1", campaignId := "c1", createdBy := "dm", finalized := false,
          finalChoiceIndex := none,
          options := [⟨"2025-08-02", "18:00", "22:00", ""⟩],
          votes := [some ⟨[], ["u1"], []⟩] }
        0 VoteType.yes "u1").votes.getD 0 none) = some b ∧
      "u1" ∈ b.bucket VoteType.yes ∧
      (∀ vt', vt' ≠ VoteType.yes → "u1" ∉ b.bucket vt') ∧
      BucketsInv b :=
  handleVote_exclusive
    { id := "p1", campaignId := "c1", createdBy := "dm", finalized := false,
      finalChoiceIndex := none,
      options := [⟨"2025-08-02", "18:00", "22:00", ""⟩],
      votes := [some ⟨[], ["u1"], []⟩] }
    0 VoteType.yes "u1" (by decide)
    (by
      intro u
      simp only [userCount, List.getD]
      by_cases h : u = "u1" <;> simp [h, List.count_singleton, List.count_eq_zero])

/-- The DM's Finalize click handler (src/app.js lines 735-744): sets
`proposal.finalized = true` and `proposal.finalChoiceIndex = idx`; it pushes
nothing into `state.sessions` (finalised proposals are rendered as sessions
directly). -/
def finalizeProposal (p : Proposal) (idx : Nat) : Proposal :=
  { p with finalized := true, finalChoiceIndex := some idx }

/-- Claim C2: finalizing the same option twice yields the same proposal state
as finalizing it once, and no subsequent `handleVote` changes the finalized
flag or the chosen option index. -/
theorem finalize_idempotent_and_locked (p : Proposal) (idx : Nat) :
    finalizeProposal (finalizeProposal p idx) idx = finalizeProposal p idx ∧
    (∀ optionIndex vt userId,
      (handleVote (finalizeProposal p idx) optionIndex vt userId).finalized = true ∧
      (handleVote (finalizeProposal p idx) optionIndex vt userId).finalChoiceIndex
        = some idx) := by
  refine ⟨rfl, ?_⟩
  intro optionIndex vt userId
  exact ⟨rfl, rfl⟩

/-! ### Ability scores: promptAbilityScoreIncrease (src/app.js lines 177-200) -/

/-- The six ability codes `str, dex, con, int, wis, cha`. -/
inductive Ability where
  | str
  | dex
  | con
  | intl
  | wis
  | cha
deriving DecidableEq, Repr

/-- The character's `abilityScores` object with its six numeric fields
(`int` is spelled `intl` because `int` is not usable in this position). -/
structure AbilityScores where
  str : Int
  dex : Int
  con : Int
  intl : Int
  wis : Int
  cha : Int
deriving DecidableEq, Repr

/-- `ch.abilityScores[code] += n` for a dynamic ability code. -/
def bump (s : AbilityScores) (a : Ability) (n : Int) : AbilityScores :=
  match a with
  | .str => { s with str := s.str + n }
  | .dex => { s with dex := s.dex + n }
  | .con => { s with con := s.con + n }
  | .intl => { s with intl := s.intl + n }
  | .wis => { s with wis := s.wis + n }
  | .cha => { s with cha := s.cha + n }

/-- The membership filter `['str','dex','con','int','wis','cha'].includes(p)`
fused with the later dynamic-key lookup: a lowercased token maps to its
ability, anything else is dropped. -/
def decodeAbility : String → Option Ability
  | "str" => some .str
  | "dex" => some .dex
  | "con" => some .con
  | "int" => some .intl
  | "wis" => some .wis
  | "cha" => some .cha
  | _ => none

/-- `input.split(/[,\s]+/).map(p => p.trim().toLowerCase()).filter(valid)`:
splitting at every comma or whitespace character produces the same list of
valid codes as splitting at runs, because the extra empty tokens are dropped
by the validity filter. -/
def parseAbilityCodes (inp : String) : List Ability :=
  ((inp.split (fun c => c == ',' || c.isWhitespace)).map
    (fun p => p.trim.toLower)).filterMap decodeAbility

/-- `promptAbilityScoreIncrease(ch)` from src/app.js lines 177-200, with the
`prompt` result passed in (`none` models a cancelled prompt; the empty string
is also falsy, so both are no-ops). -/
def promptAbilityScoreIncrease (input : Option String) (s : AbilityScores) :
    AbilityScores :=
  match input with
  | none => s
  | some inp =>
    if inp = "" then s
    else
      match parseAbilityCodes inp with
      | [] => s
      | [a] => bump s a 2
      | a :: b :: _ => bump (bump s a 1) b 1

theorem bump_bump_same (s : AbilityScores) (a : Ability) :
    bump (bump s a 1) a 1 = bump s a 2 := by
  cases a <;> simp [bump, AbilityScores.mk.injEq] <;> omega

/-- Claim C7: `promptAbilityScoreIncrease` either increases exactly one
designated ability by 2, or increases exactly two distinct designated
abilities by 1 each, and invalid or empty input (a cancelled prompt, the
empty string, or input containing no valid codes) leaves the scores
unchanged. -/
theorem promptAbilityScoreIncrease_cases (input : Option String) (s : AbilityScores) :
    (promptAbilityScoreIncrease input s = s ∨
      (∃ a, promptAbilityScoreIncrease input s = bump s a 2) ∨
      (∃ a b, a ≠ b ∧ promptAbilityScoreIncrease input s = bump (bump s a 1) b 1))
    ∧ (∀ inp, input = some inp → parseAbilityCodes inp = [] →
        promptAbilityScoreIncrease input s = s)
    ∧ promptAbilityScoreIncrease none s = s := by
  refine ⟨?_, ?_, rfl⟩
  · match input with
    | none => exact Or.inl rfl
    | some inp =>
      by_cases he : inp = ""
      · subst he
        exact Or.inl rfl
      · match hc : parseAbilityCodes inp with
        | [] =>
          left
          simp [promptAbilityScoreIncrease, he, hc]
        | [a] =>
          right; left
          exact ⟨a, by simp [promptAbilityScoreIncrease, he, hc]⟩
        | a :: b :: rest =>
          by_cases hab : a = b
          · subst hab
            right; left
            refine ⟨a, ?_⟩
            simp only [promptAbilityScoreIncrease, he, hc]
            simpa using bump_bump_same s a
          · right; right
            exact ⟨a, b, hab, by simp [promptAbilityScoreIncrease, he, hc]⟩
  · intro inp hinp hcodes
    subst hinp
    by_cases he : inp = ""
    · subst he
      rfl
    · simp [promptAbilityScoreIncrease, he, hcodes]

/-- Witness for C7: the input "dex con" increases dexterity and constitution
by 1 each, and the no-op clause applies to the input "xyz". -/
theorem promptAbilityScoreIncrease_cases_witness :
    (promptAbilityScoreIncrease (some "dex con") ⟨10, 10, 10, 10, 10, 10⟩
        = (⟨10, 10, 10, 10, 10, 10⟩ : AbilityScores) ∨
      (∃ a, promptAbilityScoreIncrease (some "dex con") ⟨10, 10, 10, 10, 10, 10⟩
        = bump ⟨10, 10, 10, 10, 10, 10⟩ a 2) ∨
      (∃ a b, a ≠ b ∧ promptAbilityScoreIncrease (some "dex con") ⟨10, 10, 10, 10, 10, 10⟩
        = bump (bump ⟨10, 10, 10, 10, 10, 10⟩ a 1) b 1))
    ∧ (∀ inp, (some "dex con" : Option String) = some inp → parseAbilityCodes inp = [] →
        promptAbilityScoreIncrease (some "dex con") ⟨10, 10, 10, 10, 10, 10⟩
          = ⟨10, 10, 10, 10, 10, 10⟩)
    ∧ promptAbilityScoreIncrease none ⟨10, 10, 10, 10, 10, 10⟩
        = (⟨10, 10, 10, 10, 10, 10⟩ : AbilityScores) :=
  promptAbilityScoreIncrease_cases (some "dex con") ⟨10, 10, 10, 10, 10, 10⟩

/-! ### Leveling replay on XP award (src/app.js lines 804-835 and the
identical copy at lines 1359-1386) -/

/-- `listStartsWith pat cs` is true when `pat` is an initial segment of
`cs`. -/
def listStartsWith : List Char → List Char → Bool
  | [], _ => true
  | _ :: _, [] => false
  | p :: ps, c :: cs => p == c && listStartsWith ps cs

/-- `listContainsPat pat cs` is true when `pat` occurs contiguously
somewhere in `cs`. -/
def listContainsPat (pat : List Char) : List Char → Bool
  | [] => listStartsWith pat []
  | c :: rest => listStartsWith pat (c :: rest) || listContainsPat pat rest

/-- The regex test `/ability score/i.test(f)`: a case-insensitive search for
the literal text "ability score", modelled by lowercasing the subject
character by character. -/
def hasAbilityScorePattern (f : String) : Bool :=
  listContainsPat "ability score".toList (f.toList.map Char.toLower)

/-- One insertion into a JS `Set` materialised as an ordered list: keep the
first occurrence, append if absent. -/
def dedupInsert (acc : List String) (f : String) : List String :=
  if acc.contains f then acc else acc ++ [f]

/-- `const existing = new Set(ch.features); feats.forEach(f => existing.add(f));
Array.from(existing)`: insertion-ordered set union. -/
def setUnion (old feats : List String) : List String :=
  feats.foldl dedupInsert (old.foldl dedupInsert [])

/-- The character fields read or written by the XP-award handler; display-only
fields (id, name, race, inventory, ...) are omitted. -/
structure Character where
  level : Nat
  xp : Int
  hp : Int
  hitDie : Option Nat
  abilityScores : AbilityScores
  features : List String
  classIndex : Option String
deriving DecidableEq, Repr

/-- `ch.hitDie || 8`: an absent (or zero, both falsy) hit die defaults
to 8. -/
def hitDieVal : Option Nat → Int
  | none => 8
  | some d => if d = 0 then 8 else (d : Int)

/-- The constitution modifier `Math.floor((ch.abilityScores.con - 10) / 2)`
(floor division, also for odd scores below 10). -/
def conMod (s : AbilityScores) : Int :=
  Int.fdiv (s.con - 10) 2

/-- The body of the per-level loop `for (let lvl = ch.level + 1; lvl <=
newLevel; lvl++)` from the Award-XP handler: add hit points, merge the
level's fetched class features as a set union, and run the ability-score
prompt when a fetched feature matches the "ability score" pattern.
`fetch` models `fetchLevelFeatures` (classIndex, level ↦ feature names) and
`asiInput` models the `prompt` reply at each level. -/
def levelStep (fetch : String → Nat → List String) (asiInput : Nat → Option String)
    (c : Character) (lvl : Nat) : Character :=
  let c1 := { c with hp := c.hp + hitDieVal c.hitDie + conMod c.abilityScores }
  match c1.classIndex with
  | none => c1
  | some ci =>
    let feats := fetch ci lvl
    let c2 := { c1 with features := setUnion c1.features feats }
    if feats.any hasAbilityScorePattern then
      { c2 with abilityScores := promptAbilityScoreIncrease (asiInput lvl) c2.abilityScores }
    else c2

/-- The Award-XP click handler (src/app.js lines 804-835): reject
non-positive awards, add the XP, and when the new level exceeds the old one
replay `levelStep` once per level from `ch.level + 1` up to `newLevel`,
then set the level. -/
def awardXp (fetch : String → Nat → List String) (asiInput : Nat → Option String)
    (c : Character) (amount : Int) : Character :=
  if amount ≤ 0 then c
  else
    let c1 := { c with xp := c.xp + amount }
    let newLevel := getLevelFromXp (some c1.xp)
    if c1.level < newLevel then
      let c2 := (List.range' (c1.level + 1) (newLevel - c1.level)).foldl
        (levelStep fetch asiInput) c1
      { c2 with level := newLevel }
    else c1

theorem foldl_levelStep_spec (fetch : String → Nat → List String)
    (asiInput : Nat → Option String) (ci : String) :
    ∀ (ls : List Nat) (c : Character), c.classIndex = some ci →
      (∀ l ∈ ls, (fetch ci l).any hasAbilityScorePattern = false) →
      (ls.foldl (levelStep fetch asiInput) c).level = c.level ∧
      (ls.foldl (levelStep fetch asiInput) c).xp = c.xp ∧
      (ls.foldl (levelStep fetch asiInput) c).classIndex = c.classIndex ∧
      (ls.foldl (levelStep fetch asiInput) c).hitDie = c.hitDie ∧
      (ls.foldl (levelStep fetch asiInput) c).abilityScores = c.abilityScores ∧
      (ls.foldl (levelStep fetch asiInput) c).hp
        = c.hp + (ls.length : Int) * (hitDieVal c.hitDie + conMod c.abilityScores) ∧
      (ls.foldl (levelStep fetch asiInput) c).features
        = ls.foldl (fun fs l => setUnion fs (fetch ci l)) c.features := by
  intro ls
  induction ls with
  | nil =>
    intro c _ _
    refine ⟨rfl, rfl, rfl, rfl, rfl, ?_, rfl⟩
    simp
  | cons l ls ih =>
    intro c hci hno
    have hstep : levelStep fetch asiInput c l =
        { c with
          hp := c.hp + hitDieVal c.hitDie + conMod c.abilityScores,
          features := setUnion c.features (fetch ci l) } := by
      unfold levelStep
      simp only [hci]
      rw [if_neg (by rw [hno l (List.mem_cons_self l ls)]; simp)]
    have hnext := ih (levelStep fetch asiInput c l)
      (by rw [hstep]; exact hci)
      (fun l' hl' => hno l' (List.mem_cons_of_mem l hl'))
    simp only [List.foldl_cons]
    rw [hstep] at hnext ⊢
    obtain ⟨h1, h2, h3, h4, h5, h6, h7⟩ := hnext
    refine ⟨h1, h2, h3, h4, h5, ?_, ?_⟩
    · rw [h6]
      simp only [List.length_cons, Nat.cast_add, Nat.cast_one]
      ring
    · rw [h7]

/-- Claim C3: a positive XP award that raises the level applies the
per-level effects once per level from `oldLevel + 1` through `newLevel`:
when no fetched feature triggers an ability-score increase (so the
constitution modifier is fixed), the hit points rise by
`(newLevel − oldLevel) · (hitDie-or-8 + floor((con − 10)/2))` — one hit-die
gain per level, not a single aggregate — and the feature list is the
per-level left-to-right set union of each level's fetched features. -/
theorem awardXp_per_level (fetch : String → Nat → List String)
    (asiInput : Nat → Option String) (c : Character) (amount : Int)
    (ci : String) (newL : Nat)
    (hpos : 0 < amount)
    (hnew : newL = getLevelFromXp (some (c.xp + amount)))
    (hup : c.level < newL)
    (hci : c.classIndex = some ci)
    (hnoasi : ∀ l ∈ List.range' (c.level + 1) (newL - c.level),
      (fetch ci l).any hasAbilityScorePattern = false) :
    (awardXp fetch asiInput c amount).level = newL ∧
    (awardXp fetch asiInput c amount).xp = c.xp + amount ∧
    (awardXp fetch asiInput c amount).hp
      = c.hp + ((newL - c.level : Nat) : Int)
          * (hitDieVal c.hitDie + conMod c.abilityScores) ∧
    (awardXp fetch asiInput c amount).features
      = (List.range' (c.level + 1) (newL - c.level)).foldl
          (fun fs l => setUnion fs (fetch ci l)) c.features := by
  have hnpos : ¬ amount ≤ 0 := by omega
  unfold awardXp
  rw [if_neg hnpos]
  simp only
  rw [← hnew]
  rw [if_pos hup]
  have hfold := foldl_levelStep_spec fetch asiInput ci
    (List.range' (c.level + 1) (newL - c.level))
    { c with xp := c.xp + amount } hci hnoasi
  obtain ⟨h1, h2, h3, h4, h5, h6, h7⟩ := hfold
  refine ⟨rfl, h2, ?_, h7⟩
  rw [h6]
  simp [List.length_range']

/-- Witness for C3: a level-1 wizard with constitution 14 awarded 900 XP
reaches level 3, gaining (8 + 2) hit points at each of levels 2 and 3 and
the two fetched features. -/
theorem awardXp_per_level_witness :
    ((awardXp
        (fun _ l => if l = 2 then ["Arcane Recovery"] else if l = 3 then ["Cantrip Formulas"] else [])
        (fun _ => none)
        { level := 1, xp := 0, hp := 10, hitDie := none,
          abilityScores := ⟨10, 10, 14, 10, 10, 10⟩, features := [],
          classIndex := some "wizard" }
        900).level = 3 ∧
      (awardXp
        (fun _ l => if l = 2 then ["Arcane Recovery"] else if l = 3 then ["Cantrip Formulas"] else [])
        (fun _ => none)
        { level := 1, xp := 0, hp := 10, hitDie := none,
          abilityScores := ⟨10, 10, 14, 10, 10, 10⟩, features := [],
          classIndex := some "wizard" }
        900).xp = 0 + 900 ∧
      (awardXp
        (fun _ l => if l = 2 then ["Arcane Recovery"] else if l = 3 then ["Cantrip Formulas"] else [])
        (fun _ => none)
        { level := 1, xp := 0, hp := 10, hitDie := none,
          abilityScores := ⟨10, 10, 14, 10, 10, 10⟩, features := [],
          classIndex := some "wizard" }
        900).hp = 10 + ((3 - 1 : Nat) : Int)
          * (hitDieVal none + conMod ⟨10, 10, 14, 10, 10, 10⟩) ∧
      (awardXp
        (fun _ l => if l = 2 then ["Arcane Recovery"] else if l = 3 then ["Cantrip Formulas"] else [])
        (fun _ => none)
        { level := 1, xp := 0, hp := 10, hitDie := none,
          abilityScores := ⟨10, 10, 14, 10, 10, 10⟩, features := [],
          classIndex := some "wizard" }
        900).features = (List.range' (1 + 1) (3 - 1)).foldl
          (fun fs l => setUnion fs
            ((fun _ l => if l = 2 then ["Arcane Recovery"] else if l = 3 then ["Cantrip Formulas"] else []) "wizard" l))
          []) :=
  awardXp_per_level
    (fun _ l => if l = 2 then ["Arcane Recovery"] else if l = 3 then ["Cantrip Formulas"] else [])
    (fun _ => none)
    { level := 1, xp := 0, hp := 10, hitDie := none,
      abilityScores := ⟨10, 10, 14, 10, 10, 10⟩, features := [],
      classIndex := some "wizard" }
    900 "wizard" 3
    (by decide) (by decide) (by decide) rfl
    (by decide)

/-! ### Scheduled-session listing and deduplication
(renderCampaignDetail, src/app.js lines 636-676).  The source also builds a
`finalizedKeys` set (lines 639-644) but never reads it; only the per-legacy
`duplicate` check filters anything.  The final `.sort(...)` is omitted: it
only permutes the displayed order and does not affect which entries appear. -/

/-- The components of a JS `Date` that the duplicate check reads
(`getFullYear/getMonth/getDate/getHours/getMinutes`), plus seconds, which the
check ignores. -/
structure DateTime where
  year : Int
  month : Int
  day : Int
  hour : Int
  minute : Int
  second : Int
deriving DecidableEq, Repr

/-- A scheduled-session record: the object pushed for a finalised proposal
and the shape of a legacy `state.sessions` entry. -/
structure SchedEntry where
  id : String
  datetime : DateTime
  campaignId : String
  endT : Option String
  location : Option String
deriving DecidableEq, Repr

/-- The duplicate test of src/app.js lines 662-672: start times equal to the
minute and locations equal after `|| ''` defaulting. -/
def sameMinuteLoc (e s : SchedEntry) : Bool :=
  e.datetime.year == s.datetime.year && e.datetime.month == s.datetime.month &&
  e.datetime.day == s.datetime.day && e.datetime.hour == s.datetime.hour &&
  e.datetime.minute == s.datetime.minute &&
  e.location.getD "" == s.location.getD ""

/-- Placeholder for an out-of-range `options[finalChoiceIndex]` access. -/
def defaultOption : TimeOption := ⟨"", "", "", ""⟩

/-- The session object built from a finalised proposal (src/app.js lines
640-652): datetime parsed from `` `${opt.date}T${opt.start}` ``. -/
def proposalEntry (parse : String → String → DateTime) (cid : String)
    (p : Proposal) : SchedEntry :=
  let opt := p.options.getD (p.finalChoiceIndex.getD 0) defaultOption
  { id := p.id, datetime := parse opt.date opt.start, campaignId := cid,
    endT := some opt.endT, location := some opt.location }

/-- One iteration of the legacy-session loop: drop the session if any
already collected entry matches it, else push it. -/
def dedupStep (acc : List SchedEntry) (s : SchedEntry) : List SchedEntry :=
  if acc.any (fun e => sameMinuteLoc e s) then acc else acc ++ [s]

/-- `scheduledSessions` as collected in renderCampaignDetail: entries for all
finalised proposals of the campaign, then each legacy `state.sessions` entry
of the campaign that duplicates no already collected entry.  `parse` models
`new Date(string)` component extraction. -/
def scheduledSessions (parse : String → String → DateTime)
    (proposals : List Proposal) (sessions : List SchedEntry) (cid : String) :
    List SchedEntry :=
  (sessions.filter (fun s => s.campaignId == cid)).foldl dedupStep
    ((proposals.filter (fun p => p.campaignId == cid && p.finalized)).map
      (proposalEntry parse cid))

/-- Number of entries of `out` sharing a minute-level start and location
with `s`. -/
def countSlot (out : List SchedEntry) (s : SchedEntry) : Nat :=
  (out.filter (fun e => sameMinuteLoc e s)).length

/-- A concrete model of parsing `"YYYY-MM-DD"` and `"HH:MM"` strings. -/
def splitOnChar (sep : Char) : List Char → List (List Char)
  | [] => [[]]
  | c :: cs =>
    let rest := splitOnChar sep cs
    if c == sep then [] :: rest
    else
      match rest with
      | [] => [[c]]
      | r :: rs => (c :: r) :: rs

def natOfChars (cs : List Char) : Nat :=
  cs.foldl (fun a c => a * 10 + (c.toNat - 48)) 0

def parseYMDHM (date time : String) : DateTime :=
  let d := (splitOnChar '-' date.toList).map natOfChars
  let t := (splitOnChar ':' time.toList).map natOfChars
  { year := (d.getD 0 0 : Nat), month := (d.getD 1 0 : Nat), day := (d.getD 2 0 : Nat),
    hour := (t.getD 0 0 : Nat), minute := (t.getD 1 0 : Nat), second := 0 }

theorem sameMinuteLoc_iff (a b : SchedEntry) :
    sameMinuteLoc a b = true ↔
      (a.datetime.year = b.datetime.year ∧ a.datetime.month = b.datetime.month ∧
        a.datetime.day = b.datetime.day ∧ a.datetime.hour = b.datetime.hour ∧
        a.datetime.minute = b.datetime.minute ∧
        a.location.getD "" = b.location.getD "") := by
  simp [sameMinuteLoc, Bool.and_eq_true, and_assoc]

theorem sameMinuteLoc_comm (a b : SchedEntry) :
    sameMinuteLoc a b = sameMinuteLoc b a := by
  by_cases h : sameMinuteLoc a b = true
  · rw [h]
    symm
    rw [sameMinuteLoc_iff]
    obtain ⟨e1, e2, e3, e4, e5, e6⟩ := (sameMinuteLoc_iff a b).mp h
    exact ⟨e1.symm, e2.symm, e3.symm, e4.symm, e5.symm, e6.symm⟩
  · rw [Bool.not_eq_true] at h
    rw [h]
    symm
    rw [Bool.eq_false_iff]
    intro hcontra
    obtain ⟨e1, e2, e3, e4, e5, e6⟩ := (sameMinuteLoc_iff b a).mp hcontra
    have htrue : sameMinuteLoc a b = true :=
      (sameMinuteLoc_iff a b).mpr ⟨e1.symm, e2.symm, e3.symm, e4.symm, e5.symm, e6.symm⟩
    rw [h] at htrue
    exact Bool.false_ne_true htrue

theorem countSlot_append (l1 l2 : List SchedEntry) (s : SchedEntry) :
    countSlot (l1 ++ l2) s = countSlot l1 s + countSlot l2 s := by
  simp [countSlot, List.filter_append]

theorem countSlot_eq_zero_of_no_match (l : List SchedEntry) (s : SchedEntry)
    (h : ∀ e ∈ l, sameMinuteLoc e s = false) : countSlot l s = 0 := by
  simp only [countSlot, List.length_eq_zero]
  rw [List.filter_eq_nil_iff]
  intro e he
  simp [h e he]

theorem foldl_dedupStep_unique (n : Nat) :
    ∀ (ss : List SchedEntry) (acc : List SchedEntry), n ≤ acc.length →
      (∀ s ∈ acc.drop n, countSlot acc s = 1) →
      ∀ s ∈ (ss.foldl dedupStep acc).drop n,
        countSlot (ss.foldl dedupStep acc) s = 1 := by
  intro ss
  induction ss with
  | nil => intro acc _ hinv; exact hinv
  | cons t ts ih =>
    intro acc hlen hinv
    simp only [List.foldl_cons]
    by_cases hmatch : acc.any (fun e => sameMinuteLoc e t) = true
    · rw [dedupStep, if_pos hmatch]
      exact ih acc hlen hinv
    · rw [dedupStep, if_neg hmatch]
      have hnomatch : ∀ e ∈ acc, sameMinuteLoc e t = false := by
        intro e he
        by_contra hne
        exact hmatch (List.any_eq_true.mpr ⟨e, he, by simpa using hne⟩)
      apply ih (acc ++ [t]) (by simp; omega)
      intro s hs
      rw [List.drop_append_of_le_length hlen] at hs
      rcases List.mem_append.mp hs with hs' | hs'
      · have hsacc : s ∈ acc := List.mem_of_mem_drop hs'
        rw [countSlot_append]
        have h1 : countSlot [t] s = 0 := by
          apply countSlot_eq_zero_of_no_match
          intro e he
          rw [List.mem_singleton] at he
          subst he
          rw [sameMinuteLoc_comm]
          exact hnomatch s hsacc
        rw [h1, hinv s hs']
      · rw [List.mem_singleton] at hs'
        subst hs'
        rw [countSlot_append]
        have h0 : countSlot acc s = 0 := countSlot_eq_zero_of_no_match acc s hnomatch
        have h1 : countSlot [s] s = 1 := by
          simp [countSlot, List.filter, sameMinuteLoc]
        rw [h0, h1]

/-- Counterexample for claim C6 as stated: two finalised proposals of the
same campaign with identical option slots ("2025-08-02" 18:00, same
location) BOTH appear in the collected session list — the dedup filter only
inspects legacy `state.sessions` entries, and the `finalizedKeys` set is
never read.  The displayed list has two entries sharing the same
minute-level start time and location. -/
theorem scheduled_dedup_counterexample :
    (scheduledSessions parseYMDHM
      [{ id := "p1", campaignId := "c1", createdBy := "dm", finalized := true,
         finalChoiceIndex := some 0,
         options := [⟨"2025-08-02", "18:00", "22:00", "Dave"⟩],
         votes := [some ⟨[], [], []⟩] },
       { id := "p2", campaignId := "c1", createdBy := "dm", finalized := true,
         finalChoiceIndex := some 0,
         options := [⟨"2025-08-02", "18:00", "21:00", "Dave"⟩],
         votes := [some ⟨[], [], []⟩] }]
      [] "c1").length = 2 ∧
    countSlot
      (scheduledSessions parseYMDHM
        [{ id := "p1", campaignId := "c1", createdBy := "dm", finalized := true,
           finalChoiceIndex := some 0,
           options := [⟨"2025-08-02", "18:00", "22:00", "Dave"⟩],
           votes := [some ⟨[], [], []⟩] },
         { id := "p2", campaignId := "c1", createdBy := "dm", finalized := true,
           finalChoiceIndex := some 0,
           options := [⟨"2025-08-02", "18:00", "21:00", "Dave"⟩],
           votes := [some ⟨[], [], []⟩] }]
        [] "c1")
      { id := "x", datetime := ⟨2025, 8, 2, 18, 0, 0⟩, campaignId := "c1",
        endT := none, location := some "Dave" } = 2 := by
  constructor
  · rfl
  · rfl

/-- Claim C6 as amended: deduplication applies to every pair involving a
pre-scheduled `state.sessions` entry — every entry of the collected list
that came from `state.sessions` (the part after the finalised-proposal
prefix) is the unique entry with its minute-level start time and location;
pairs of finalised proposals are not deduplicated (see the
counterexample). -/
theorem scheduled_dedup_legacy_unique (parse : String → String → DateTime)
    (proposals : List Proposal) (sessions : List SchedEntry) (cid : String) :
    ∀ s ∈ (scheduledSessions parse proposals sessions cid).drop
        ((proposals.filter (fun p => p.campaignId == cid && p.finalized)).length),
      countSlot (scheduledSessions parse proposals sessions cid) s = 1 := by
  unfold scheduledSessions
  apply foldl_dedupStep_unique
  · rw [List.length_map]
  · intro s hs
    rw [← List.length_map (List.filter (fun p => p.campaignId == cid && p.finalized) proposals)
      (proposalEntry parse cid), List.drop_length] at hs
    exact absurd hs (List.not_mem_nil s)

/-- Witness for the amended C6: one finalised proposal at 18:00 plus a
legacy session at the same slot (dropped) and a distinct one at 19:00
(kept); the kept legacy entry is the unique entry with its slot. -/
theorem scheduled_dedup_legacy_unique_witness :
    countSlot
      (scheduledSessions parseYMDHM
        [{ id := "p1", campaignId := "c1", createdBy := "dm", finalized := true,
           finalChoiceIndex := some 0,
           options := [⟨"2025-08-02", "18:00", "22:00", "Dave"⟩],
           votes := [some ⟨[], [], []⟩] }]
        [{ id := "s1", datetime := ⟨2025, 8, 2, 18, 0, 0⟩, campaignId := "c1",
           endT := some "22:00", location := some "Dave" },
         { id := "s2", datetime := ⟨2025, 8, 2, 19, 0, 0⟩, campaignId := "c1",
           endT := none, location := some "Eve" }]
        "c1")
      { id := "s2", datetime := ⟨2025, 8, 2, 19, 0, 0⟩, campaignId := "c1",
        endT := none, location := some "Eve" } = 1 :=
  scheduled_dedup_legacy_unique parseYMDHM
    [{ id := "p1", campaignId := "c1", createdBy := "dm", finalized := true,
       finalChoiceIndex := some 0,
       options := [⟨"2025-08-02", "18:00", "22:00", "Dave"⟩],
       votes := [some ⟨[], [], []⟩] }]
    [{ id := "s1", datetime := ⟨2025, 8, 2, 18, 0, 0⟩, campaignId := "c1",
       endT := some "22:00", location := some "Dave" },
     { id := "s2", datetime := ⟨2025, 8, 2, 19, 0, 0⟩, campaignId := "c1",
       endT := none, location := some "Eve" }]
    "c1"
    { id := "s2", datetime := ⟨2025, 8, 2, 19, 0, 0⟩, campaignId := "c1",
      endT := none, location := some "Eve" }
    (by decide)

/-! ### Persisted state loading: loadState (src/app.js lines 23-59) and the
dice-roll log (src/app.js lines 1577-1598) -/

/-- A user record (id, username, password, role). -/
structure User where
  id : String
  username : String
  password : String
  role : String
deriving DecidableEq, Repr

/-- A campaign record (id, name, owner). -/
structure Campaign where
  id : String
  name : String
  ownerId : String
deriving DecidableEq, Repr

/-- The critical flag of a d20 roll. -/
inductive Crit where
  | success
  | failure
deriving DecidableEq, Repr

/-- A dice-roll log entry as built in `rollDice` (the display-only
`details` string is omitted). -/
structure RollEntry where
  id : String
  timestamp : Int
  userId : String
  userName : String
  expression : String
  label : String
  result : Int
  crit : Option Crit
  campaignId : Option String
deriving DecidableEq, Repr

/-- The in-memory application state returned by `loadState`.  `rolls` is an
`Option` because the parse-failure fallback object has no `rolls` key at
all, while every other path produces an array. -/
structure AppState where
  users : List User
  campaigns : List Campaign
  sessions : List SchedEntry
  proposals : List Proposal
  characters : List Character
  rolls : Option (List RollEntry)
  currentUserId : Option String
deriving DecidableEq, Repr

/-- A successfully parsed stored document before normalisation: the three
fields that older saves may lack are `Option`s. -/
structure RawState where
  users : List User
  campaigns : List Campaign
  sessions : List SchedEntry
  proposals : Option (List Proposal)
  characters : Option (List Character)
  rolls : Option (List RollEntry)
  currentUserId : Option String
deriving DecidableEq, Repr

/-- The fresh-install default (src/app.js lines 31-39): all collections
empty, including `rolls: []`, and no current user. -/
def freshDefault : AppState :=
  { users := [], campaigns := [], sessions := [], proposals := [],
    characters := [], rolls := some [], currentUserId := none }

/-- The catch-branch default (src/app.js lines 50-57): like the fresh
default but with NO `rolls` key. -/
def parseFailureDefault : AppState :=
  { users := [], campaigns := [], sessions := [], proposals := [],
    characters := [], rolls := none, currentUserId := none }

/-- `loadState()` from src/app.js lines 23-59.  The argument models the
stored string: `none` for no stored value, `some none` for a stored string
`JSON.parse` rejects, `some (some raw)` for a parsed document, which is then
normalised (missing `characters`/`proposals`/`rolls` arrays are filled
in). -/
def loadState : Option (Option RawState) → AppState
  | none => freshDefault
  | some none => parseFailureDefault
  | some (some raw) =>
    { users := raw.users, campaigns := raw.campaigns, sessions := raw.sessions,
      proposals := raw.proposals.getD [], characters := raw.characters.getD [],
      rolls := some (raw.rolls.getD []), currentUserId := raw.currentUserId }

/-- Claim C8 (code-bug evidence): for a stored string that fails to parse,
`loadState` does NOT return the fresh-install default state — the catch
branch omits the `rolls` collection that the fresh default initialises to
`[]` (and that the code's own comment at lines 27-30 says is needed for the
dice roller), so the two states differ. -/
theorem loadState_parse_failure_differs :
    (loadState (some none)).rolls = none ∧
      (loadState none).rolls = some [] ∧
      loadState (some none) ≠ loadState none := by
  refine ⟨rfl, rfl, ?_⟩
  intro h
  have : (loadState (some none)).rolls = (loadState none).rolls := by rw [h]
  simp [loadState, parseFailureDefault, freshDefault] at this

/-- The roll-log append-and-trim block of `rollDice` (src/app.js lines
1592-1596): push the entry, then keep only the last 500 entries
(`slice(-500)`). -/
def logRoll (rolls : List RollEntry) (entry : RollEntry) : List RollEntry :=
  let r := rolls ++ [entry]
  if 500 < r.length then r.drop (r.length - 500) else r

/-- The logging guard of `rollDice` (src/app.js line 1578): the log is only
touched when a user is logged in. -/
def rollDiceLog (currentUserId : Option String) (rolls : List RollEntry)
    (entry : RollEntry) : List RollEntry :=
  match currentUserId with
  | none => rolls
  | some _ => logRoll rolls entry

/-- Claim C9: when the log holds at most 500 entries, it still holds at most
500 after any `rollDice` call; the new log is a suffix of the old log plus
the new entry (so the oldest entries are discarded first), nothing is
dropped below the bound, and exactly the single oldest entry is dropped at
the bound. -/
theorem rollDiceLog_bounded (currentUserId : Option String)
    (rolls : List RollEntry) (entry : RollEntry)
    (h : rolls.length ≤ 500) :
    (rollDiceLog currentUserId rolls entry).length ≤ 500 ∧
    (currentUserId = none → rollDiceLog currentUserId rolls entry = rolls) ∧
    (∀ u, currentUserId = some u →
      (rollDiceLog currentUserId rolls entry).IsSuffix (rolls ++ [entry])) ∧
    (∀ u, currentUserId = some u → rolls.length < 500 →
      rollDiceLog currentUserId rolls entry = rolls ++ [entry]) ∧
    (∀ u, currentUserId = some u → rolls.length = 500 →
      rollDiceLog currentUserId rolls entry = rolls.drop 1 ++ [entry]) := by
  match currentUserId with
  | none =>
    refine ⟨h, fun _ => rfl, ?_, ?_, ?_⟩ <;> intro u hu <;> exact absurd hu (by simp)
  | some u =>
    simp only [rollDiceLog, logRoll]
    by_cases hfull : rolls.length = 500
    · have hcond : 500 < (rolls ++ [entry]).length := by
        simp [hfull]
      rw [if_pos hcond]
      have hlen1 : (rolls ++ [entry]).length - 500 = 1 := by
        simp [hfull]
      rw [hlen1]
      have hdrop : (rolls ++ [entry]).drop 1 = rolls.drop 1 ++ [entry] :=
        List.drop_append_of_le_length (by omega)
      refine ⟨?_, ?_, ?_, ?_, ?_⟩
      · have hld := List.length_drop 1 (rolls ++ [entry])
        have hla : (rolls ++ [entry]).length = 501 := by simp [hfull]
        omega
      · intro hnone
        exact absurd hnone (by simp)
      · intro _ _
        exact List.drop_suffix _ _
      · intro _ _ hlt
        omega
      · intro _ _ _
        exact hdrop
    · have hlt : rolls.length < 500 := by omega
      rw [if_neg (by simp; omega)]
      refine ⟨by simp; omega, ?_, ?_, ?_, ?_⟩
      · intro hnone
        exact absurd hnone (by simp)
      · intro _ _
        exact List.suffix_refl _
      · intro _ _ _
        rfl
      · intro _ _ heq
        omega

/-- Witness for C9: a one-entry log stays below the bound and the entry is
appended. -/
theorem rollDiceLog_bounded_witness :
    (rollDiceLog (some "u1")
        [{ id := "r0", timestamp := 0, userId := "u1", userName := "A",
           expression := "1d6", label := "1d6", result := 3, crit := none,
           campaignId := none }]
        { id := "r1", timestamp := 1, userId := "u1", userName := "A",
          expression := "1d20", label := "1d20", result := 20,
          crit := some Crit.success, campaignId := none }).length ≤ 500 :=
  (rollDiceLog_bounded (some "u1")
    [{ id := "r0", timestamp := 0, userId := "u1", userName := "A",
       expression := "1d6", label := "1d6", result := 3, crit := none,
       campaignId := none }]
    { id := "r1", timestamp := 1, userId := "u1", userName := "A",
      expression := "1d20", label := "1d20", result := 20,
      crit := some Crit.success, campaignId := none }
    (by decide)).1

/-! ### Dice roller: rollDice (src/app.js lines 1551-1600).  The expression
is first parsed by parseDiceExpression (lines 1519-1541) into a list of
terms — dice terms `{count, size, sign}` and modifier terms `{mod}` — and
`rollDice` folds over that list.  The random draws `Math.floor(Math.random()
* size) + 1` are supplied as an explicit list of face values consumed in
order; the display-only `details` string is omitted. -/

/-- A term of a parsed dice expression. -/
inductive Term where
  | dice (count : Nat) (size : Nat) (sign : Int)
  | mod (m : Int)
deriving DecidableEq, Repr

/-- The guard `term.size === 20 && term.count === 1` of the crit check. -/
def isSingleD20 : Term → Bool
  | .dice count size _ => size == 20 && count == 1
  | .mod _ => false

/-- The crit assignment inside the roll loop: only a term that is exactly
one d20 can set the flag, to success on a 20 and failure on a 1. -/
def critUpdate (count size : Nat) (roll : Nat) (crit : Option Crit) : Option Crit :=
  if size == 20 && count == 1 then
    if roll == 20 then some Crit.success
    else if roll == 1 then some Crit.failure
    else crit
  else crit

/-- Processing one term: a dice term consumes `count` draws, adds each
(signed) to the running total and runs the crit check per draw; a modifier
term adds its value. -/
def rollStep : (List Nat × Int × Option Crit) → Term → (List Nat × Int × Option Crit)
  | (draws, total, crit), .mod m => (draws, total + m, crit)
  | (draws, total, crit), .dice count size sign =>
    let results := draws.take count
    (draws.drop count,
     results.foldl (fun t r => t + (r : Int) * sign) total,
     results.foldl (fun c r => critUpdate count size r c) crit)

/-- `rollDice` on the parsed term list: total and crit flag. -/
def rollDice (terms : List Term) (draws : List Nat) : Int × Option Crit :=
  ((terms.foldl rollStep (draws, 0, none)).2.1,
   (terms.foldl rollStep (draws, 0, none)).2.2)

/-- Number of draws consumed by a term list. -/
def drawCount : List Term → Nat
  | [] => 0
  | .dice c _ _ :: ts => c + drawCount ts
  | .mod _ :: ts => drawCount ts

/-- The crit value produced by a single d20 face. -/
def critFromRoll (r : Nat) : Option Crit :=
  if r == 20 then some Crit.success
  else if r == 1 then some Crit.failure
  else none

theorem foldl_critUpdate_id (count size : Nat)
    (h : (size == 20 && count == 1) = false) :
    ∀ (rs : List Nat) (c : Option Crit),
      rs.foldl (fun c r => critUpdate count size r c) c = c := by
  intro rs
  induction rs with
  | nil => intro c; rfl
  | cons r rs ih =>
    intro c
    simp only [List.foldl_cons]
    rw [show critUpdate count size r c = c from by
      unfold critUpdate
      rw [if_neg (by simp [h])]]
    exact ih c

theorem rollStep_crit_of_not_single (st : List Nat × Int × Option Crit)
    (t : Term) (h : isSingleD20 t = false) :
    (rollStep st t).2.2 = st.2.2 := by
  obtain ⟨d, tot, c⟩ := st
  cases t with
  | mod m => rfl
  | dice count size sign =>
    simp only [rollStep]
    exact foldl_critUpdate_id count size (by simpa [isSingleD20] using h) _ _

theorem foldl_rollStep_crit (terms : List Term) :
    ∀ st, (∀ t ∈ terms, isSingleD20 t = false) →
      (terms.foldl rollStep st).2.2 = st.2.2 := by
  induction terms with
  | nil => intro st _; rfl
  | cons t ts ih =>
    intro st h
    simp only [List.foldl_cons]
    rw [ih (rollStep st t) (fun u hu => h u (List.mem_cons_of_mem t hu))]
    exact rollStep_crit_of_not_single st t (h t (List.mem_cons_self t ts))

theorem foldl_rollStep_draws (terms : List Term) :
    ∀ st : List Nat × Int × Option Crit,
      (terms.foldl rollStep st).1 = st.1.drop (drawCount terms) := by
  induction terms with
  | nil => intro st; rfl
  | cons t ts ih =>
    intro st
    obtain ⟨d, tot, c⟩ := st
    simp only [List.foldl_cons]
    cases t with
    | mod m =>
      rw [ih]
      rfl
    | dice count size sign =>
      rw [ih]
      simp only [rollStep, drawCount]
      rw [List.drop_drop]

/-- Claim C10: `rollDice` returns a non-null critical flag only if the
parsed expression contains a dice term of exactly one d20 (count 1, size
20); terms with any other count or size never set the flag; and when the
expression contains exactly one single-d20 term, the flag is success when
that die's draw is 20, failure when it is 1, and null otherwise. -/
theorem rollDice_crit_spec :
    (∀ (terms : List Term) (draws : List Nat),
      (rollDice terms draws).2 ≠ none → ∃ sg, Term.dice 1 20 sg ∈ terms)
    ∧ (∀ (pre post : List Term) (sg : Int) (draws : List Nat),
      (∀ t ∈ pre, isSingleD20 t = false) →
      (∀ t ∈ post, isSingleD20 t = false) →
      (rollDice (pre ++ Term.dice 1 20 sg :: post) draws).2
        = critFromRoll (draws.getD (drawCount pre) 0)) := by
  constructor
  · intro terms draws hne
    by_contra hno
    push_neg at hno
    have hall : ∀ t ∈ terms, isSingleD20 t = false := by
      intro t ht
      cases t with
      | mod m => rfl
      | dice count size sign =>
        by_contra hcontra
        rw [Bool.not_eq_false] at hcontra
        simp only [isSingleD20, Bool.and_eq_true, beq_iff_eq] at hcontra
        obtain ⟨h20, h1⟩ := hcontra
        subst h20
        subst h1
        exact hno sign ht
    exact hne (foldl_rollStep_crit terms (draws, 0, none) hall)
  · intro pre post sg draws hpre hpost
    unfold rollDice
    rw [List.foldl_append]
    rcases hfold : pre.foldl rollStep (draws, 0, none) with ⟨d1, t1, c1⟩
    have hc1 : c1 = none := by
      have := foldl_rollStep_crit pre (draws, 0, none) hpre
      rw [hfold] at this
      exact this
    have hd1 : d1 = draws.drop (drawCount pre) := by
      have := foldl_rollStep_draws pre (draws, 0, none)
      rw [hfold] at this
      exact this
    subst hc1
    simp only [List.foldl_cons]
    rcases hcase : d1 with _ | ⟨r, rest⟩
    · have hstep : rollStep ([], t1, none) (Term.dice 1 20 sg)
          = (([] : List Nat), t1, none) := rfl
      rw [hstep]
      rw [foldl_rollStep_crit post _ hpost]
      have hnone : draws[drawCount pre]? = none := by
        have : (draws.drop (drawCount pre))[0]? = draws[drawCount pre + 0]? :=
          List.getElem?_drop draws (drawCount pre) 0
        rw [← hd1, hcase] at this
        simpa using this.symm
      simp [List.getD, hnone, critFromRoll]
    · have hstep : rollStep (r :: rest, t1, none) (Term.dice 1 20 sg)
          = (rest, t1 + (r : Int) * sg, critUpdate 1 20 r none) := rfl
      rw [hstep]
      rw [foldl_rollStep_crit post _ hpost]
      have hr : draws[drawCount pre]? = some r := by
        have : (draws.drop (drawCount pre))[0]? = draws[drawCount pre + 0]? :=
          List.getElem?_drop draws (drawCount pre) 0
        rw [← hd1, hcase] at this
        simpa using this.symm
      simp only [List.getD, List.get?_eq_getElem?, hr, Option.getD_some]
      unfold critUpdate critFromRoll
      rw [if_pos (by rfl)]

/-- Witness for C10: the expression `2d6 + 1d20 + 3` with draws 4, 5, 20
yields a critical success, and the first conjunct applied to that outcome
recovers a single-d20 term. -/
theorem rollDice_crit_spec_witness :
    (∃ sg, Term.dice 1 20 sg ∈
      [Term.dice 2 6 1, Term.dice 1 20 1, Term.mod 3]) ∧
    (rollDice [Term.dice 2 6 1, Term.dice 1 20 1, Term.mod 3] [4, 5, 20]).2
      = critFromRoll ([4, 5, 20].getD (drawCount [Term.dice 2 6 1]) 0) :=
  ⟨rollDice_crit_spec.1 [Term.dice 2 6 1, Term.dice 1 20 1, Term.mod 3] [4, 5, 20]
      (by decide),
   rollDice_crit_spec.2 [Term.dice 2 6 1] [Term.mod 3] 1 [4, 5, 20]
      (by decide) (by decide)⟩

end TorchTime
